import Mathlib

/-!
Verification of the interlinear Bible API's lexicon-resolution core.

Strings from the Python source are modelled as `List Char`; Python's
`str.strip`, `str.upper`, `str.lower`, regex splitting on `[,\s/;]+`,
`re.match(r"^[HhGg]\d+$", ...)` and `re.sub(r"\D", "", ...)` are given
explicit executable definitions below.  Dictionaries are modelled as
association lists where insertion conses in front and lookup returns the
most recent binding, which matches Python dict insert/lookup semantics.
-/

/- ===================== character classes ===================== -/

/-- The whitespace characters recognised by Python's default `str.strip`
and by the ASCII part of the regex class `\s` used in `re.split(r"[,\s/;]+", ...)`:
space, tab, newline, carriage return, vertical tab, form feed. -/
def isPySpace (c : Char) : Bool :=
  c = ' ' || c = '\t' || c = '\n' || c = '\r' || c = '\x0b' || c = '\x0c'

/-- A character consumed by the splitting regex `[,\s/;]+` in
`app.py _norm_strong_keys`, `apply_lexicon_to_db.norm_strong_keys` and
`tools/export_ot_interlinear.norm_strong_keys`. -/
def isDelim (c : Char) : Bool :=
  c = ',' || c = '/' || c = ';' || isPySpace c

/- ===================== Python str.strip ===================== -/

/-- Remove the trailing characters satisfying `p`. -/
def dropTrail (p : Char → Bool) (l : List Char) : List Char :=
  (l.reverse.dropWhile p).reverse

/-- Python `str.strip()`: remove leading and trailing whitespace. -/
def pyStrip (l : List Char) : List Char :=
  dropTrail isPySpace (l.dropWhile isPySpace)

/- ===================== regex split ===================== -/

/-- Accumulator worker for `splitPieces`: `acc` holds the current in-progress
piece in reverse order. -/
def runsAux : List Char → List Char → List (List Char)
  | [], acc => if acc = [] then [] else [acc.reverse]
  | c :: rest, acc =>
    if isDelim c then
      if acc = [] then runsAux rest [] else acc.reverse :: runsAux rest []
    else
      runsAux rest (c :: acc)

/-- The non-empty pieces of `re.split(r"[,\s/;]+", s)`, in order: the maximal
runs of non-delimiter characters.  (`re.split` can additionally emit empty
strings at the boundaries; every caller in the source immediately skips empty
pieces with `if not p: continue`, so the composition is modelled directly.) -/
def splitPieces (s : List Char) : List (List Char) := runsAux s []

/- ===================== the key normalizer ===================== -/

/-- `re.match(r"^[HhGg]\d+$", p)` succeeds: one letter of `HhGg` followed by
one or more digits. -/
def matchHG (p : List Char) : Bool :=
  match p with
  | [] => false
  | c :: rest =>
    (c = 'H' || c = 'h' || c = 'G' || c = 'g') && !rest.isEmpty && rest.all Char.isDigit

/-- Keys contributed by one split piece in `app.py _norm_strong_keys`
(and identically in `apply_lexicon_to_db.norm_strong_keys`):
a prefixed code `H7225` yields `[H7225, 7225]`; anything else keeps only its
digits `num` (`re.sub(r"\D", "", p)`) and, when `num` is non-empty, hedges
across both languages as `[H+num, G+num, num]`. -/
def pieceKeys (p : List Char) : List (List Char) :=
  match p with
  | [] => []
  | c :: rest =>
    if matchHG (c :: rest) then
      let num := rest.filter Char.isDigit
      if num = [] then [] else [Char.toUpper c :: num, num]
    else
      let num := (c :: rest).filter Char.isDigit
      if num = [] then [] else ['H' :: num, 'G' :: num, num]

/-- Keys contributed by one split piece in
`tools/export_ot_interlinear.norm_strong_keys`: same as `pieceKeys` except
that the bare-digit case prefers Hebrew, `[H+num, num, G+num]`, and each piece
is `p.strip()`-ed first (the identity on split pieces, kept for fidelity). -/
def pieceKeysOT (p : List Char) : List (List Char) :=
  match pyStrip p with
  | [] => []
  | c :: rest =>
    if matchHG (c :: rest) then
      let num := rest.filter Char.isDigit
      if num = [] then [] else [Char.toUpper c :: num, num]
    else
      let num := (c :: rest).filter Char.isDigit
      if num = [] then [] else ['H' :: num, num, 'G' :: num]

/-- Order-preserving deduplication (the `seen` set loop closing
`_norm_strong_keys`). -/
def dedupeAux : List (List Char) → List (List Char) → List (List Char)
  | [], _ => []
  | k :: rest, seen =>
    if k ∈ seen then dedupeAux rest seen else k :: dedupeAux rest (k :: seen)

/-- Deduplicate preserving first-occurrence order. -/
def dedupe (ks : List (List Char)) : List (List Char) := dedupeAux ks []

/-- `app.py _norm_strong_keys` (the same logic appears as
`apply_lexicon_to_db.norm_strong_keys`, which only adds a per-piece
`p.strip()` that is the identity on whitespace-free split pieces): normalize a
raw Strong's field into an ordered duplicate-free list of candidate keys. -/
def norm_strong_keys (raw : List Char) : List (List Char) :=
  if raw = [] then []
  else dedupe ((splitPieces (pyStrip raw)).map pieceKeys).flatten

/-- `tools/export_ot_interlinear.norm_strong_keys`: the OT-biased variant. -/
def norm_strong_keys_ot (raw : List Char) : List (List Char) :=
  if raw = [] then []
  else dedupe ((splitPieces (pyStrip raw)).map pieceKeysOT).flatten

/-- The normalizer applied to a possibly-`None` argument: Python's
`if not raw: return []` guard treats `None` and the empty string alike. -/
def norm_strong_keys_raw : Option (List Char) → List (List Char)
  | none => []
  | some raw => norm_strong_keys raw

example : norm_strong_keys "H7225".toList = ["H7225".toList, "7225".toList] := by decide
example : norm_strong_keys "7225".toList =
    ["H7225".toList, "G7225".toList, "7225".toList] := by decide
example : norm_strong_keys_ot "7225".toList =
    ["H7225".toList, "7225".toList, "G7225".toList] := by decide
example : norm_strong_keys " h72a2, G5/9 ;x".toList =
    ["H722".toList, "G722".toList, "722".toList, "G5".toList, "5".toList,
     "H9".toList, "G9".toList, "9".toList] := by decide
example : norm_strong_keys "H7225 7225".toList =
    ["H7225".toList, "7225".toList, "G7225".toList] := by decide
example : norm_strong_keys "".toList = [] := by decide
example : norm_strong_keys "HG ,;/".toList = [] := by decide

deriving instance DecidableEq for Except

/- ===================== dict model ===================== -/

/-- A Python dict with `List Char` keys: newest binding first. -/
abbrev StrMap (α : Type) : Type := List (List Char × α)

/-- Dict lookup: the most recent binding of `k`, if any. -/
def mget {α : Type} (m : StrMap α) (k : List Char) : Option α :=
  (m.find? (fun p => p.1 == k)).map (fun p => p.2)

/-- Dict insertion `m[k] = v`: the new binding shadows any older one. -/
def mset {α : Type} (m : StrMap α) (k : List Char) (v : α) : StrMap α :=
  (k, v) :: m

/- ===================== lexicon store ===================== -/

/-- A `{lemma, translit, gloss}` lexicon entry.  (`lemma` is a Lean keyword,
hence the trailing underscore.) -/
structure LexEntry where
  lemma_ : List Char
  translit : List Char
  gloss : List Char
deriving DecidableEq

/-- A row of `strongs_lexicon.csv` as handed to the loaders. -/
structure StrongsRow where
  strong : List Char
  lemma_ : List Char
  translit : List Char
  gloss : List Char
deriving DecidableEq

/-- A row of `greek_lexicon.csv`. -/
structure GreekRow where
  lemma_ : List Char
  translit : List Char
  gloss : List Char
deriving DecidableEq

/-- The entry built from a Strong's row: each field `.strip()`-ed. -/
def entryOfRow (r : StrongsRow) : LexEntry :=
  ⟨pyStrip r.lemma_, pyStrip r.translit, pyStrip r.gloss⟩

/-- The Strong's half of `Lexicon.load` (app.py lines 86-97), identical in
`apply_lexicon_to_db.load_strongs_map`: rows in source order; rows with a
blank code are skipped; each row's entry is inserted under every key of
`norm_strong_keys`, later rows shadowing earlier ones. -/
def loadStrongs (rows : List StrongsRow) : StrMap LexEntry :=
  rows.foldl
    (fun m r =>
      let strong := pyStrip r.strong
      if strong = [] then m
      else (norm_strong_keys strong).foldl (fun m' k => mset m' k (entryOfRow r)) m)
    []

/-- The Greek (lemma-keyed) half of `Lexicon.load` (app.py lines 99-107),
identical in `apply_lexicon_to_db.load_greek_map`. -/
def loadGreek (rows : List GreekRow) : StrMap LexEntry :=
  rows.foldl
    (fun m r =>
      let l := pyStrip r.lemma_
      if l = [] then m
      else mset m l ⟨l, pyStrip r.translit, pyStrip r.gloss⟩)
    []

/-- The in-memory lexicon: `by_strong` and `by_lemma` maps. -/
structure Lexicon where
  by_strong : StrMap LexEntry
  by_lemma : StrMap LexEntry

/-- `Lexicon.load` of app.py. -/
def Lexicon.load (strongsRows : List StrongsRow) (greekRows : List GreekRow) : Lexicon :=
  ⟨loadStrongs strongsRows, loadGreek greekRows⟩

/- ===================== token enrichment ===================== -/

/-- A token row as selected by the verse/chapter endpoints (NULL text fields
already coalesced to the empty string by the `or ""` in `enrich_token`). -/
structure TokenRow where
  surface : List Char
  lemma_ : List Char
  translit : List Char
  gloss : List Char
  morph : List Char
  strong : List Char
  token_index : Int
deriving DecidableEq

/-- The JSON object produced for one token by `enrich_token`. -/
structure Enriched where
  surface : List Char
  lemma_ : List Char
  translit : List Char
  gloss : List Char
  morph : List Char
  strong : List Char
  index : Int
  resolved_lemma : List Char
  resolved_translit : List Char
  resolved_gloss : List Char
  translation : List Char
deriving DecidableEq

/-- Python `a or b` on strings: `b` exactly when `a` is empty. -/
def pyOr (a b : List Char) : List Char := if a = [] then b else a

/-- The `for k in _norm_strong_keys(strong): hit = LEX.by_strong.get(k); if hit:
resolved = hit; break` loop: first key with a binding wins.  (Stored entries
are three-key dicts, hence always truthy.) -/
def firstHit (m : StrMap LexEntry) : List (List Char) → Option LexEntry
  | [] => none
  | k :: ks =>
    match mget m k with
    | some e => some e
    | none => firstHit m ks

/-- Candidate-entry resolution of `enrich_token` (app.py lines 160-167):
Strong's keys first, then the lemma-keyed map when the token has a lemma,
else no candidate (the empty dict `{}`). -/
def candidate (lex : Lexicon) (strong lemma_ : List Char) : Option LexEntry :=
  match firstHit lex.by_strong (norm_strong_keys strong) with
  | some e => some e
  | none => if lemma_ ≠ [] then mget lex.by_lemma lemma_ else none

/-- `resolved.get(field, "")`: a field of the optional candidate, or empty. -/
def candField (c : Option LexEntry) (f : LexEntry → List Char) : List Char :=
  match c with
  | some e => f e
  | none => []

/-- `app.py enrich_token` (lines 142-179). -/
def enrich_token (lex : Lexicon) (row : TokenRow) : Enriched :=
  if row.lemma_ ≠ [] ∧ row.translit ≠ [] ∧ row.gloss ≠ [] then
    { surface := row.surface, lemma_ := row.lemma_, translit := row.translit,
      gloss := row.gloss, morph := row.morph, strong := row.strong,
      index := row.token_index,
      resolved_lemma := row.lemma_, resolved_translit := row.translit,
      resolved_gloss := row.gloss, translation := row.gloss }
  else
    let resolved := candidate lex row.strong row.lemma_
    let r_lemma := pyOr row.lemma_ (candField resolved LexEntry.lemma_)
    let r_transl := pyOr row.translit (candField resolved LexEntry.translit)
    let r_gloss := pyOr row.gloss (candField resolved LexEntry.gloss)
    { surface := row.surface, lemma_ := row.lemma_, translit := row.translit,
      gloss := row.gloss, morph := row.morph, strong := row.strong,
      index := row.token_index,
      resolved_lemma := r_lemma, resolved_translit := r_transl,
      resolved_gloss := r_gloss, translation := r_gloss }

/-- The original token fields carried verbatim on an enriched record. -/
def originalFields (e : Enriched) : TokenRow :=
  ⟨e.surface, e.lemma_, e.translit, e.gloss, e.morph, e.strong, e.index⟩

/- ===================== batch resolver (apply_lexicon_to_db) ===================== -/

/-- A token row as selected by `apply_lexicon_to_db.main` (`id` plus the
COALESCE'd text fields). -/
structure DbTokenRow where
  id : Int
  strong : List Char
  lemma_ : List Char
  translit : List Char
  gloss : List Char
deriving DecidableEq

/-- The "Decide new values" block of `apply_lexicon_to_db.main`
(lines 147-155). -/
def decideNewValues (overwrite : Bool) (hit : LexEntry) (tl tt tg : List Char) :
    List Char × List Char × List Char :=
  if overwrite then (pyOr hit.lemma_ tl, pyOr hit.translit tt, pyOr hit.gloss tg)
  else (pyOr tl hit.lemma_, pyOr tt hit.translit, pyOr tg hit.gloss)

/-- The per-row body of `apply_lexicon_to_db.main` (lines 125-164): resolve a
candidate (Strong's first, then Greek-lemma), decide new values per mode, and
return the values to write back, or `none` when nothing is written (no hit, or
no field changes). -/
def processRow (overwrite : Bool) (strongs_map greek_map : StrMap LexEntry)
    (r : DbTokenRow) : Option (List Char × List Char × List Char) :=
  let t_strong := pyStrip r.strong
  let t_lemma := pyStrip r.lemma_
  let t_transl := pyStrip r.translit
  let t_gloss := pyStrip r.gloss
  let hit : Option LexEntry :=
    match firstHit strongs_map (norm_strong_keys t_strong) with
    | some e => some e
    | none => if t_lemma ≠ [] then mget greek_map t_lemma else none
  match hit with
  | none => none
  | some h =>
    let nv := decideNewValues overwrite h t_lemma t_transl t_gloss
    if nv ≠ (t_lemma, t_transl, t_gloss) then some nv else none

/- ===================== bulk seed loader (seed.py) ===================== -/

/-- The exceptions that can escape `seed.seed`. -/
inductive SeedErr where
  /-- `coerce_row`'s ValueError "Bad numeric fields in row". -/
  | badNumeric
  /-- `coerce_row`'s ValueError "Missing required fields in row". -/
  | missingFields
  /-- `seed`'s RuntimeError "CSV missing required columns". -/
  | missingColumns
deriving DecidableEq

/-- The number denoted by a digit string. -/
def natOfDigits (ds : List Char) : Nat :=
  ds.foldl (fun n c => 10 * n + (c.toNat - 48)) 0

/-- Python `int(str(x).strip())` on the ASCII inputs the loader sees:
an optional sign followed by one or more digits; everything else raises
(`none`). -/
def pyInt (s : List Char) : Option Int :=
  match pyStrip s with
  | [] => none
  | '-' :: ds =>
    if ds ≠ [] ∧ ds.all Char.isDigit then some (-(natOfDigits ds : Int)) else none
  | '+' :: ds =>
    if ds ≠ [] ∧ ds.all Char.isDigit then some ((natOfDigits ds : Int)) else none
  | ds => if ds.all Char.isDigit then some ((natOfDigits ds : Int)) else none

/-- One CSV row as produced by `csv.DictReader`: every field a raw string. -/
structure RawRow where
  book_code : List Char
  chapter : List Char
  verse : List Char
  token_index : List Char
  surface : List Char
  lemma_ : List Char
  translit : List Char
  gloss : List Char
  morph : List Char
  strong : List Char
deriving DecidableEq

/-- A coerced row ready for insertion into the tokens table. -/
structure SeedRow where
  book_code : List Char
  chapter : Int
  verse : Int
  token_index : Int
  surface : List Char
  lemma_ : List Char
  translit : List Char
  gloss : List Char
  morph : List Char
  strong : List Char
deriving DecidableEq

/-- `seed.coerce_row` (lines 33-50): coerce the numeric fields (a failure
raises), normalize the text fields, then check the required fields. -/
def coerce_row (r : RawRow) : Except SeedErr SeedRow :=
  match pyInt r.chapter, pyInt r.verse, pyInt r.token_index with
  | some ch, some v, some ti =>
    let row : SeedRow :=
      ⟨pyStrip r.book_code, ch, v, ti, pyStrip r.surface, pyStrip r.lemma_,
       pyStrip r.translit, pyStrip r.gloss, pyStrip r.morph, pyStrip r.strong⟩
    if row.book_code = [] ∨ row.surface = [] then Except.error SeedErr.missingFields
    else Except.ok row
  | _, _, _ => Except.error SeedErr.badNumeric

/-- One batch commit in `seed.seed`: `executemany` succeeds iff every row of
the batch inserts; on failure the batch is rolled back and retried row by
row, counting successes and failures.  Returns the increments of the
`(total, bad)` counters. -/
def runBatch (insertOk : SeedRow → Bool) (batch : List SeedRow) : Nat × Nat :=
  if batch.all insertOk then (batch.length, 0)
  else (batch.countP insertOk, batch.countP (fun r => !insertOk r))

/-- The batch loop of `seed.seed` (lines 111-129) over the stream of
`coerce_row`-coerced rows.  A row whose coercion raises aborts the whole
load: the exception propagates out of the generator feeding `batched`, past
the per-batch try/except (which guards only the inserts), and out of `seed`.
`insertOk` abstracts which rows the INSERT statement accepts. -/
def seedLoop (insertOk : SeedRow → Bool) (batchSize : Nat) :
    List RawRow → List SeedRow → Nat → Nat → Except SeedErr (Nat × Nat)
  | [], batch, total, bad =>
    if batch = [] then Except.ok (total, bad)
    else
      let tb := runBatch insertOk batch
      Except.ok (total + tb.1, bad + tb.2)
  | r :: rest, batch, total, bad =>
    match coerce_row r with
    | Except.error e => Except.error e
    | Except.ok row =>
      let batch' := batch ++ [row]
      if batchSize ≤ batch'.length then
        let tb := runBatch insertOk batch'
        seedLoop insertOk batchSize rest [] (total + tb.1) (bad + tb.2)
      else
        seedLoop insertOk batchSize rest batch' total bad

/-- The required CSV columns of `seed.seed` (line 105). -/
def requiredCols : List (List Char) :=
  ["book_code".toList, "chapter".toList, "verse".toList, "token_index".toList,
   "surface".toList, "lemma".toList, "translit".toList, "gloss".toList,
   "morph".toList, "strong".toList]

/-- `seed.seed` (lines 103-130): the required-column header check, then the
batch loop with counters starting at zero. -/
def seed (fieldnames : List (List Char)) (rows : List RawRow)
    (insertOk : SeedRow → Bool) (batchSize : Nat) : Except SeedErr (Nat × Nat) :=
  if requiredCols.any (fun c => !fieldnames.contains c) then
    Except.error SeedErr.missingColumns
  else seedLoop insertOk batchSize rows [] 0 0

/- ===================== book resolution and endpoints ===================== -/

/-- The 66-entry book-code table of app.py (`FALLBACK_BOOK_CODES`,
lines 17-30), in source order. -/
def BOOK_CODES : StrMap (List Char) :=
  [("GEN".toList, "Genesis".toList), ("EXO".toList, "Exodus".toList),
   ("LEV".toList, "Leviticus".toList), ("NUM".toList, "Numbers".toList),
   ("DEU".toList, "Deuteronomy".toList), ("JOS".toList, "Joshua".toList),
   ("JDG".toList, "Judges".toList), ("RUT".toList, "Ruth".toList),
   ("1SA".toList, "1 Samuel".toList), ("2SA".toList, "2 Samuel".toList),
   ("1KI".toList, "1 Kings".toList), ("2KI".toList, "2 Kings".toList),
   ("1CH".toList, "1 Chronicles".toList), ("2CH".toList, "2 Chronicles".toList),
   ("EZR".toList, "Ezra".toList), ("NEH".toList, "Nehemiah".toList),
   ("EST".toList, "Esther".toList), ("JOB".toList, "Job".toList),
   ("PSA".toList, "Psalms".toList), ("PRO".toList, "Proverbs".toList),
   ("ECC".toList, "Ecclesiastes".toList), ("SNG".toList, "Song of Solomon".toList),
   ("ISA".toList, "Isaiah".toList), ("JER".toList, "Jeremiah".toList),
   ("LAM".toList, "Lamentations".toList), ("EZK".toList, "Ezekiel".toList),
   ("DAN".toList, "Daniel".toList), ("HOS".toList, "Hosea".toList),
   ("JOL".toList, "Joel".toList), ("AMO".toList, "Amos".toList),
   ("OBA".toList, "Obadiah".toList), ("JON".toList, "Jonah".toList),
   ("MIC".toList, "Micah".toList), ("NAM".toList, "Nahum".toList),
   ("HAB".toList, "Habakkuk".toList), ("ZEP".toList, "Zephaniah".toList),
   ("HAG".toList, "Haggai".toList), ("ZEC".toList, "Zechariah".toList),
   ("MAL".toList, "Malachi".toList), ("MAT".toList, "Matthew".toList),
   ("MRK".toList, "Mark".toList), ("LUK".toList, "Luke".toList),
   ("JHN".toList, "John".toList), ("ACT".toList, "Acts".toList),
   ("ROM".toList, "Romans".toList), ("1CO".toList, "1 Corinthians".toList),
   ("2CO".toList, "2 Corinthians".toList), ("GAL".toList, "Galatians".toList),
   ("EPH".toList, "Ephesians".toList), ("PHP".toList, "Philippians".toList),
   ("COL".toList, "Colossians".toList), ("1TH".toList, "1 Thessalonians".toList),
   ("2TH".toList, "2 Thessalonians".toList), ("1TI".toList, "1 Timothy".toList),
   ("2TI".toList, "2 Timothy".toList), ("TIT".toList, "Titus".toList),
   ("PHM".toList, "Philemon".toList), ("HEB".toList, "Hebrews".toList),
   ("JAS".toList, "James".toList), ("1PE".toList, "1 Peter".toList),
   ("2PE".toList, "2 Peter".toList), ("1JN".toList, "1 John".toList),
   ("2JN".toList, "2 John".toList), ("3JN".toList, "3 John".toList),
   ("JUD".toList, "Jude".toList), ("REV".toList, "Revelation".toList)]

/-- `NAME_TO_CODE` (app.py line 47): `{name.lower(): code}` over the book
table in order, later entries shadowing earlier ones. -/
def name_to_code (codes : StrMap (List Char)) : StrMap (List Char) :=
  codes.foldl (fun m p => mset m (p.2.map Char.toLower) p.1) []

/-- The branch cascade of `resolve_book` after the strip/empty check:
code lookup on the uppercased input, then name lookup on the lowercased
input, then the first-three-letters guess, else 404.  (`BOOK_CODES[code]`
after a name hit always succeeds since `NAME_TO_CODE`'s values are the
table's own keys; `getD []` stands for that direct indexing.) -/
def resolveUpLow (codes : StrMap (List Char)) (up low : List Char) :
    Except Nat (List Char × List Char) :=
  match mget codes up with
  | some name => Except.ok (up, name)
  | none =>
    match mget (name_to_code codes) low with
    | some code => Except.ok (code, (mget codes code).getD [])
    | none =>
      match mget codes (up.take 3) with
      | some name => Except.ok (up.take 3, name)
      | none => Except.error 404

/-- `app.py resolve_book` (lines 126-140), parametrised by the book table;
errors are modelled by their HTTP status (400 validation, 404 not found). -/
def resolve_book (codes : StrMap (List Char)) (raw : List Char) :
    Except Nat (List Char × List Char) :=
  let r := pyStrip raw
  if r = [] then Except.error 400
  else resolveUpLow codes (r.map Char.toUpper) (r.map Char.toLower)

/-- A stored row of the tokens table as the endpoints select it. -/
structure DbRow where
  book_code : List Char
  chapter : Int
  verse : Int
  token_index : Int
  surface : List Char
  lemma_ : List Char
  translit : List Char
  gloss : List Char
  morph : List Char
  strong : List Char
deriving DecidableEq

/-- The token-level fields the endpoints hand to `enrich_token`. -/
def DbRow.toTokenRow (r : DbRow) : TokenRow :=
  ⟨r.surface, r.lemma_, r.translit, r.gloss, r.morph, r.strong, r.token_index⟩

/-- Stable-enough insertion used to model SQL `ORDER BY`. -/
def insertBy {α : Type} (le : α → α → Bool) (a : α) : List α → List α
  | [] => [a]
  | b :: bs => if le a b then a :: b :: bs else b :: insertBy le a bs

/-- Sort modelling SQL `ORDER BY` with the given `Bool`-valued order. -/
def sortBy {α : Type} (le : α → α → Bool) (l : List α) : List α :=
  l.foldr (insertBy le) []

/-- The verse query of `get_interlinear_verse`: rows of the addressed verse,
ordered by `token_index`. -/
def verseQuery (db : List DbRow) (code : List Char) (ch v : Int) : List DbRow :=
  sortBy (fun a b => a.token_index ≤ b.token_index)
    (db.filter (fun r => r.book_code == code && r.chapter == ch && r.verse == v))

/-- The chapter query of `get_interlinear_chapter`: rows of the addressed
chapter, ordered by `(verse, token_index)`. -/
def chapterQuery (db : List DbRow) (code : List Char) (ch : Int) : List DbRow :=
  sortBy (fun a b => a.verse < b.verse || (a.verse == b.verse && a.token_index ≤ b.token_index))
    (db.filter (fun r => r.book_code == code && r.chapter == ch))

/-- Decimal rendering of an `Int`, for the `reference` strings. -/
def intStr (i : Int) : List Char := (toString i).toList

/-- The verse-endpoint response object. -/
structure VersePayload where
  reference : List Char
  book : List Char
  book_code : List Char
  chapter : Int
  verse : Int
  tokens : List Enriched
deriving DecidableEq

/-- The chapter-endpoint response object; `verses` is the insertion-ordered
dict `{verse: [tokens]}`. -/
structure ChapterPayload where
  reference : List Char
  book : List Char
  book_code : List Char
  chapter : Int
  verses : List (Int × List Enriched)
deriving DecidableEq

/-- `app.py get_interlinear_verse` (lines 212-223). -/
def get_interlinear_verse (lex : Lexicon) (db : List DbRow) (book : List Char)
    (ch v : Int) : Except Nat VersePayload :=
  match resolve_book BOOK_CODES book with
  | Except.error e => Except.error e
  | Except.ok (code, name) =>
    let rows := verseQuery db code ch v
    Except.ok
      { reference := name ++ (' ' :: intStr ch) ++ (':' :: intStr v),
        book := name, book_code := code, chapter := ch, verse := v,
        tokens := rows.map (fun r => enrich_token lex r.toTokenRow) }

/-- `verses.setdefault(v, []).append(...)`: append a token to its verse
group, creating the group at the end on first sight (dict insertion order). -/
def addToGroup (groups : List (Int × List Enriched)) (v : Int) (e : Enriched) :
    List (Int × List Enriched) :=
  match groups with
  | [] => [(v, [e])]
  | g :: gs => if g.1 = v then (g.1, g.2 ++ [e]) :: gs else g :: addToGroup gs v e

/-- `app.py get_interlinear_chapter` (lines 225-239). -/
def get_interlinear_chapter (lex : Lexicon) (db : List DbRow) (book : List Char)
    (ch : Int) : Except Nat ChapterPayload :=
  match resolve_book BOOK_CODES book with
  | Except.error e => Except.error e
  | Except.ok (code, name) =>
    let rows := chapterQuery db code ch
    Except.ok
      { reference := name ++ (' ' :: intStr ch),
        book := name, book_code := code, chapter := ch,
        verses := rows.foldl
          (fun g r => addToGroup g r.verse (enrich_token lex r.toTokenRow)) [] }

example : resolve_book BOOK_CODES "GEN".toList = Except.ok ("GEN".toList, "Genesis".toList) := by
  decide
example : resolve_book BOOK_CODES "genesis".toList =
    Except.ok ("GEN".toList, "Genesis".toList) := by decide
example : resolve_book BOOK_CODES "Judges".toList =
    Except.ok ("JDG".toList, "Judges".toList) := by decide
example : resolve_book BOOK_CODES "".toList = Except.error 400 := by decide
example : resolve_book BOOK_CODES "XYZ".toList = Except.error 404 := by decide
example : resolve_book BOOK_CODES "Genesis Extra".toList =
    Except.ok ("GEN".toList, "Genesis".toList) := by decide

/- ===================== character lemmas ===================== -/

theorem char_eq_of_toNat_eq {c d : Char} (h : c.toNat = d.toNat) : c = d := by
  apply Char.eq_of_val_eq
  apply UInt32.eq_of_toBitVec_eq
  exact BitVec.eq_of_toNat_eq h

theorem toNat_ofNat_valid {n : Nat} (h : n.isValidChar) : (Char.ofNat n).toNat = n := by
  unfold Char.ofNat
  rw [dif_pos h]
  simp [Char.ofNatAux, Char.toNat, UInt32.toNat, BitVec.toNat_ofNatLt]

theorem toNat_of_delim {c : Char} (h : isDelim c = true) :
    c.toNat = 44 ∨ c.toNat = 47 ∨ c.toNat = 59 ∨ c.toNat = 32 ∨ c.toNat = 9 ∨
    c.toNat = 10 ∨ c.toNat = 13 ∨ c.toNat = 11 ∨ c.toNat = 12 := by
  simp only [isDelim, isPySpace, Bool.or_eq_true, decide_eq_true_eq, or_assoc] at h
  rcases h with h | h | h | h | h | h | h | h | h <;> subst h <;> decide

theorem space_toNat_iff {c : Char} : isPySpace c = true ↔
    (c.toNat = 32 ∨ c.toNat = 9 ∨ c.toNat = 10 ∨ c.toNat = 13 ∨
     c.toNat = 11 ∨ c.toNat = 12) := by
  constructor
  · intro h
    simp only [isPySpace, Bool.or_eq_true, decide_eq_true_eq, or_assoc] at h
    rcases h with h | h | h | h | h | h <;> subst h <;> decide
  · intro h
    rcases h with h | h | h | h | h | h
    · have hc : c = ' ' := char_eq_of_toNat_eq h
      subst hc; decide
    · have hc : c = '\t' := char_eq_of_toNat_eq h
      subst hc; decide
    · have hc : c = '\n' := char_eq_of_toNat_eq h
      subst hc; decide
    · have hc : c = '\r' := char_eq_of_toNat_eq h
      subst hc; decide
    · have hc : c = '\x0b' := char_eq_of_toNat_eq h
      subst hc; decide
    · have hc : c = '\x0c' := char_eq_of_toNat_eq h
      subst hc; decide

theorem toNat_of_isDigit {c : Char} (h : c.isDigit = true) :
    48 ≤ c.toNat ∧ c.toNat ≤ 57 := by
  simp [Char.isDigit] at h
  exact h

theorem toNat_of_letterHG {c : Char}
    (h : (c = 'H' || c = 'h' || c = 'G' || c = 'g') = true) :
    c.toNat = 72 ∨ c.toNat = 104 ∨ c.toNat = 71 ∨ c.toNat = 103 := by
  simp only [Bool.or_eq_true, decide_eq_true_eq, or_assoc] at h
  rcases h with h | h | h | h <;> subst h <;> decide

theorem delim_false_of_digit {c : Char} (h : c.isDigit = true) : isDelim c = false := by
  cases hx : isDelim c
  · rfl
  · have h1 := toNat_of_isDigit h
    have h2 := toNat_of_delim hx
    omega

theorem space_false_of_delim_false {c : Char} (h : isDelim c = false) :
    isPySpace c = false := by
  simp only [isDelim, Bool.or_eq_false_iff] at h
  exact h.2

theorem letters_false_of_digit {c : Char} (h : c.isDigit = true) :
    (c = 'H' || c = 'h' || c = 'G' || c = 'g') = false := by
  cases hx : (c = 'H' || c = 'h' || c = 'G' || c = 'g')
  · rfl
  · have h1 := toNat_of_isDigit h
    have h2 := toNat_of_letterHG hx
    omega

theorem toUpper_toNat_of_lower {c : Char} (h1 : 97 ≤ c.toNat) (h2 : c.toNat ≤ 122) :
    (Char.toUpper c).toNat = c.toNat - 32 := by
  unfold Char.toUpper
  rw [if_pos ⟨h1, h2⟩]
  exact toNat_ofNat_valid (Or.inl (by omega))

theorem toUpper_eq_self {c : Char} (h : ¬(97 ≤ c.toNat ∧ c.toNat ≤ 122)) :
    Char.toUpper c = c := by
  unfold Char.toUpper
  rw [if_neg h]

theorem toLower_toNat_of_upper {c : Char} (h1 : 65 ≤ c.toNat) (h2 : c.toNat ≤ 90) :
    (Char.toLower c).toNat = c.toNat + 32 := by
  unfold Char.toLower
  rw [if_pos ⟨h1, h2⟩]
  exact toNat_ofNat_valid (Or.inl (by omega))

theorem toLower_eq_self {c : Char} (h : ¬(65 ≤ c.toNat ∧ c.toNat ≤ 90)) :
    Char.toLower c = c := by
  unfold Char.toLower
  rw [if_neg h]


/-- Characters agreeing after `toUpper` agree after `toLower` (so everything
`resolve_book` computes from the lowercased input is determined by the
uppercased input). -/
theorem toLower_eq_of_toUpper_eq {c d : Char}
    (h : Char.toUpper c = Char.toUpper d) : Char.toLower c = Char.toLower d := by
  by_cases hc : 97 ≤ c.toNat ∧ c.toNat ≤ 122
  · by_cases hd : 97 ≤ d.toNat ∧ d.toNat ≤ 122
    · have e1 := toUpper_toNat_of_lower hc.1 hc.2
      have e2 := toUpper_toNat_of_lower hd.1 hd.2
      have e3 := congrArg Char.toNat h
      have e4 : c = d := char_eq_of_toNat_eq (by omega)
      rw [e4]
    · have e1 := toUpper_toNat_of_lower hc.1 hc.2
      rw [toUpper_eq_self hd] at h
      have e3 : d.toNat = c.toNat - 32 := by
        have := congrArg Char.toNat h
        omega
      apply char_eq_of_toNat_eq
      rw [toLower_eq_self (c := c) (by omega), toLower_toNat_of_upper (by omega) (by omega)]
      omega
  · by_cases hd : 97 ≤ d.toNat ∧ d.toNat ≤ 122
    · have e1 := toUpper_toNat_of_lower hd.1 hd.2
      rw [toUpper_eq_self hc] at h
      have e3 : c.toNat = d.toNat - 32 := by
        have := congrArg Char.toNat h
        omega
      apply char_eq_of_toNat_eq
      rw [toLower_eq_self (c := d) (by omega), toLower_toNat_of_upper (by omega) (by omega)]
      omega
    · rw [toUpper_eq_self hc, toUpper_eq_self hd] at h
      rw [h]

/-- `toUpper` neither creates nor destroys whitespace. -/
theorem space_toUpper_iff {c : Char} : isPySpace (Char.toUpper c) = isPySpace c := by
  by_cases hc : 97 ≤ c.toNat ∧ c.toNat ≤ 122
  · have e1 := toUpper_toNat_of_lower hc.1 hc.2
    have h1 : isPySpace (Char.toUpper c) = false := by
      cases hx : isPySpace (Char.toUpper c)
      · rfl
      · have := space_toNat_iff.mp hx
        omega
    have h2 : isPySpace c = false := by
      cases hx : isPySpace c
      · rfl
      · have := space_toNat_iff.mp hx
        omega
    rw [h1, h2]
  · rw [toUpper_eq_self hc]

/- ===================== strip lemmas ===================== -/

theorem dropWhile_no {α : Type} (p : α → Bool) (l : List α)
    (h : ∀ c ∈ l, p c = false) : l.dropWhile p = l := by
  cases l with
  | nil => rfl
  | cons x xs =>
    rw [List.dropWhile_cons, h x (by simp)]
    simp

theorem pyStrip_no_space (l : List Char) (h : ∀ c ∈ l, isPySpace c = false) :
    pyStrip l = l := by
  unfold pyStrip dropTrail
  rw [dropWhile_no _ _ h, dropWhile_no, List.reverse_reverse]
  intro c hc
  exact h c (List.mem_reverse.mp hc)

theorem head_dropWhile {α : Type} (p : α → Bool) (l : List α) :
    ∀ x t, l.dropWhile p = x :: t → p x = false := by
  induction l with
  | nil => intro x t h; simp at h
  | cons a as ih =>
    intro x t h
    rw [List.dropWhile_cons] at h
    by_cases hp : p a
    · rw [if_pos (by simp [hp])] at h
      exact ih x t h
    · rw [if_neg (by simp [hp])] at h
      injection h with h1 h2
      subst h1
      simpa using hp

theorem dropWhile_idem {α : Type} (p : α → Bool) (l : List α) :
    (l.dropWhile p).dropWhile p = l.dropWhile p := by
  cases hd : l.dropWhile p with
  | nil => rfl
  | cons x t =>
    rw [List.dropWhile_cons, head_dropWhile p l x t hd]
    simp

theorem dropWhile_eq_drop {α : Type} (p : α → Bool) (l : List α) :
    ∃ n, l.dropWhile p = l.drop n := by
  induction l with
  | nil => exact ⟨0, rfl⟩
  | cons a as ih =>
    by_cases hp : p a
    · obtain ⟨n, hn⟩ := ih
      refine ⟨n + 1, ?_⟩
      rw [List.dropWhile_cons, if_pos (by simp [hp])]
      simpa using hn
    · refine ⟨0, ?_⟩
      rw [List.dropWhile_cons, if_neg (by simp [hp])]
      rfl

theorem dropTrail_eq_take (p : Char → Bool) (l : List Char) :
    ∃ n, dropTrail p l = l.take n := by
  obtain ⟨n, hn⟩ := dropWhile_eq_drop p l.reverse
  refine ⟨l.length - n, ?_⟩
  unfold dropTrail
  rw [hn, List.reverse_drop, List.reverse_reverse, List.length_reverse]

theorem dropTrail_idem (p : Char → Bool) (l : List Char) :
    dropTrail p (dropTrail p l) = dropTrail p l := by
  unfold dropTrail
  rw [List.reverse_reverse, dropWhile_idem]

theorem pyStrip_idem (l : List Char) : pyStrip (pyStrip l) = pyStrip l := by
  have hw : pyStrip l = dropTrail isPySpace (l.dropWhile isPySpace) := rfl
  have hd : (pyStrip l).dropWhile isPySpace = pyStrip l := by
    cases hm : pyStrip l with
    | nil => rfl
    | cons x t =>
      obtain ⟨n, hn⟩ := dropTrail_eq_take isPySpace (l.dropWhile isPySpace)
      rw [hw, hn] at hm
      have hx : isPySpace x = false := by
        cases hv : l.dropWhile isPySpace with
        | nil => rw [hv] at hm; simp at hm
        | cons y ys =>
          have hy := head_dropWhile isPySpace l y ys hv
          rw [hv] at hm
          cases n with
          | zero => simp at hm
          | succ m =>
            rw [List.take_succ_cons] at hm
            injection hm with h1 h2
            rw [h1] at hy
            exact hy
      rw [List.dropWhile_cons, hx]
      simp
  show dropTrail isPySpace ((pyStrip l).dropWhile isPySpace) = pyStrip l
  rw [hd, hw, dropTrail_idem]

theorem pyStrip_subset {l : List Char} {c : Char} (h : c ∈ pyStrip l) : c ∈ l := by
  obtain ⟨n, hn⟩ := dropTrail_eq_take isPySpace (l.dropWhile isPySpace)
  have : pyStrip l = (l.dropWhile isPySpace).take n := hn
  rw [this] at h
  have h1 : c ∈ l.dropWhile isPySpace := List.mem_of_mem_take h
  obtain ⟨m, hm⟩ := dropWhile_eq_drop isPySpace l
  rw [hm] at h1
  exact List.mem_of_mem_drop h1

theorem pyStrip_map_comm {f : Char → Char}
    (hf : ∀ c, isPySpace (f c) = isPySpace c) (l : List Char) :
    pyStrip (l.map f) = (pyStrip l).map f := by
  have hcomm : ∀ m : List Char, (m.map f).dropWhile isPySpace =
      (m.dropWhile isPySpace).map f := by
    intro m
    induction m with
    | nil => rfl
    | cons a as ih =>
      rw [List.map_cons, List.dropWhile_cons, List.dropWhile_cons, hf a]
      by_cases h : isPySpace a
      · rw [if_pos (by simp [h]), if_pos (by simp [h]), ih]
      · rw [if_neg (by simp [h]), if_neg (by simp [h]), List.map_cons]
  have hrev : ∀ m : List Char, (m.map f).reverse = m.reverse.map f :=
    fun m => (List.map_reverse f m).symm
  unfold pyStrip dropTrail
  simp only [hcomm, hrev]

/- ===================== split lemmas ===================== -/

theorem runsAux_no_delim {s : List Char} (h : ∀ c ∈ s, isDelim c = false) :
    ∀ acc, runsAux s acc =
      if acc.reverse ++ s = [] then [] else [acc.reverse ++ s] := by
  induction s with
  | nil =>
    intro acc
    show (if acc = [] then [] else [acc.reverse]) = _
    by_cases ha : acc = []
    · simp [ha]
    · simp [ha, List.reverse_eq_nil_iff]
  | cons c rest ih =>
    intro acc
    have hc : isDelim c = false := h c (by simp)
    show (if isDelim c = true then _ else runsAux rest (c :: acc)) = _
    rw [hc]
    simp only [Bool.false_eq_true, if_false]
    rw [ih (fun x hx => h x (List.mem_cons_of_mem c hx)) (c :: acc)]
    have hrw : (c :: acc).reverse ++ rest = acc.reverse ++ c :: rest := by
      simp
    rw [hrw]

theorem splitPieces_single {s : List Char} (hne : s ≠ [])
    (h : ∀ c ∈ s, isDelim c = false) : splitPieces s = [s] := by
  unfold splitPieces
  rw [runsAux_no_delim h []]
  simp [hne]

theorem mem_of_mem_runsAux {piece : List Char} {c : Char} (hc : c ∈ piece) :
    ∀ {s acc : List Char}, piece ∈ runsAux s acc → c ∈ s ∨ c ∈ acc := by
  intro s
  induction s with
  | nil =>
    intro acc hp
    unfold runsAux at hp
    split at hp
    · simp at hp
    · rw [List.mem_singleton] at hp
      subst hp
      right
      exact List.mem_reverse.mp hc
  | cons a as ih =>
    intro acc hp
    unfold runsAux at hp
    split at hp
    · split at hp
      · rcases ih hp with h1 | h1
        · exact Or.inl (List.mem_cons_of_mem a h1)
        · simp at h1
      · rcases List.mem_cons.mp hp with rfl | hp'
        · right
          exact List.mem_reverse.mp hc
        · rcases ih hp' with h1 | h1
          · exact Or.inl (List.mem_cons_of_mem a h1)
          · simp at h1
    · rcases ih hp with h1 | h1
      · exact Or.inl (List.mem_cons_of_mem a h1)
      · rcases List.mem_cons.mp h1 with rfl | h2
        · exact Or.inl (List.mem_cons_self _ _)
        · exact Or.inr h2

theorem mem_of_mem_splitPieces {piece : List Char} {c : Char} {s : List Char}
    (hp : piece ∈ splitPieces s) (hc : c ∈ piece) : c ∈ s := by
  rcases mem_of_mem_runsAux hc hp with h | h
  · exact h
  · simp at h

/- ===================== dedupe lemmas ===================== -/

theorem mem_of_mem_dedupeAux {k : List Char} :
    ∀ {ks seen : List (List Char)}, k ∈ dedupeAux ks seen → k ∈ ks := by
  intro ks
  induction ks with
  | nil => intro seen h; simp [dedupeAux] at h
  | cons k0 rest ih =>
    intro seen h
    unfold dedupeAux at h
    split at h
    · exact List.mem_cons_of_mem k0 (ih h)
    · rcases List.mem_cons.mp h with rfl | h'
      · exact List.mem_cons_self _ _
      · exact List.mem_cons_of_mem k0 (ih h')

theorem not_mem_seen_of_mem_dedupeAux {k : List Char} :
    ∀ {ks seen : List (List Char)}, k ∈ dedupeAux ks seen → k ∉ seen := by
  intro ks
  induction ks with
  | nil => intro seen h; simp [dedupeAux] at h
  | cons k0 rest ih =>
    intro seen h
    unfold dedupeAux at h
    split at h
    · exact ih h
    · rcases List.mem_cons.mp h with rfl | h'
      · assumption
      · intro hk
        exact ih h' (List.mem_cons_of_mem k0 hk)

theorem nodup_dedupeAux : ∀ (ks seen : List (List Char)), (dedupeAux ks seen).Nodup := by
  intro ks
  induction ks with
  | nil => intro seen; simp [dedupeAux]
  | cons k0 rest ih =>
    intro seen
    unfold dedupeAux
    split
    · exact ih seen
    · refine List.nodup_cons.mpr ⟨?_, ih (k0 :: seen)⟩
      intro hmem
      exact not_mem_seen_of_mem_dedupeAux hmem (List.mem_cons_self k0 seen)

theorem dedupe_nodup (ks : List (List Char)) : (dedupe ks).Nodup :=
  nodup_dedupeAux ks []

theorem dedupe_pair {a b : List Char} (h : a ≠ b) : dedupe [a, b] = [a, b] := by
  unfold dedupe dedupeAux
  rw [if_neg (by simp)]
  unfold dedupeAux
  rw [if_neg (by simp [Ne.symm h])]
  rfl

theorem dedupe_triple {a b c : List Char} (h1 : a ≠ b) (h2 : a ≠ c) (h3 : b ≠ c) :
    dedupe [a, b, c] = [a, b, c] := by
  unfold dedupe dedupeAux
  rw [if_neg (by simp)]
  unfold dedupeAux
  rw [if_neg (by simp [Ne.symm h1])]
  unfold dedupeAux
  rw [if_neg (by simp [Ne.symm h3, Ne.symm h2])]
  rfl

/-- The normalizer is insensitive to pre-stripping (`Lexicon.load` strips the
raw code before calling it). -/
theorem norm_strong_keys_pyStrip (raw : List Char) :
    norm_strong_keys (pyStrip raw) = norm_strong_keys raw := by
  by_cases h0 : raw = []
  · subst h0; rfl
  · by_cases h1 : pyStrip raw = []
    · unfold norm_strong_keys
      rw [h1, if_pos rfl, if_neg h0]
      rfl
    · unfold norm_strong_keys
      rw [if_neg h0, if_neg h1, pyStrip_idem]

/- ===================== C1 ===================== -/

theorem norm_nodup (raw : List Char) : (norm_strong_keys raw).Nodup := by
  unfold norm_strong_keys
  split
  · exact List.nodup_nil
  · exact dedupe_nodup _

theorem norm_ot_nodup (raw : List Char) : (norm_strong_keys_ot raw).Nodup := by
  unfold norm_strong_keys_ot
  split
  · exact List.nodup_nil
  · exact dedupe_nodup _

/-- C1: a raw Strong's input of one letter in {H,h,G,g} followed by digits
normalizes to exactly `[<UPPER letter><digits>, <digits>]`; a bare-digit input
normalizes to `[H<digits>, G<digits>, <digits>]` in the default normalizer and
to `[H<digits>, <digits>, G<digits>]` in the OT-biased variant; and no key is
ever duplicated in either normalizer's output. -/
theorem C1_normalize_key_shapes (letter : Char) (ds : List Char)
    (hl : letter ∈ (['H', 'h', 'G', 'g'] : List Char))
    (hne : ds ≠ []) (hds : ds.all Char.isDigit = true) :
    norm_strong_keys (letter :: ds) = [Char.toUpper letter :: ds, ds] ∧
    norm_strong_keys ds = ['H' :: ds, 'G' :: ds, ds] ∧
    norm_strong_keys_ot ds = ['H' :: ds, ds, 'G' :: ds] ∧
    ∀ raw : List Char, (norm_strong_keys raw).Nodup ∧ (norm_strong_keys_ot raw).Nodup := by
  cases ds with
  | nil => exact absurd rfl hne
  | cons d dr =>
  have hdig : ∀ c ∈ d :: dr, c.isDigit = true := fun c hc => List.all_eq_true.mp hds c hc
  have hlet : (letter = 'H' || letter = 'h' || letter = 'G' || letter = 'g') = true := by
    simp only [List.mem_cons, List.not_mem_nil, or_false] at hl
    rcases hl with rfl | rfl | rfl | rfl <;> decide
  have hnd : ∀ c ∈ letter :: d :: dr, isDelim c = false := by
    intro c hc
    rcases List.mem_cons.mp hc with rfl | hc'
    · cases hx : isDelim c
      · rfl
      · have h1 := toNat_of_delim hx
        have h2 := toNat_of_letterHG hlet
        omega
    · exact delim_false_of_digit (hdig c hc')
  have hnd2 : ∀ c ∈ d :: dr, isDelim c = false :=
    fun c hc => delim_false_of_digit (hdig c hc)
  have hfilter : (d :: dr).filter Char.isDigit = d :: dr := List.filter_eq_self.mpr hdig
  have hmatch : matchHG (letter :: d :: dr) = true := by
    show ((letter = 'H' || letter = 'h' || letter = 'G' || letter = 'g') &&
      !(d :: dr).isEmpty && (d :: dr).all Char.isDigit) = true
    rw [hlet, hds]
    rfl
  have hmatch2 : matchHG (d :: dr) = false := by
    show ((d = 'H' || d = 'h' || d = 'G' || d = 'g') &&
      !dr.isEmpty && dr.all Char.isDigit) = false
    rw [letters_false_of_digit (hdig d (List.mem_cons_self _ _))]
    rfl
  have hpk : pieceKeys (letter :: d :: dr) = [Char.toUpper letter :: d :: dr, d :: dr] := by
    show (if matchHG (letter :: d :: dr) then
        (fun num => if num = [] then [] else [Char.toUpper letter :: num, num])
          ((d :: dr).filter Char.isDigit)
      else
        (fun num => if num = [] then [] else ['H' :: num, 'G' :: num, num])
          ((letter :: d :: dr).filter Char.isDigit)) = _
    rw [hmatch, if_pos rfl]
    simp only [hfilter]
    rw [if_neg (List.cons_ne_nil d dr)]
  have hpk2 : pieceKeys (d :: dr) = ['H' :: d :: dr, 'G' :: d :: dr, d :: dr] := by
    show (if matchHG (d :: dr) then
        (fun num => if num = [] then [] else [Char.toUpper d :: num, num])
          (dr.filter Char.isDigit)
      else
        (fun num => if num = [] then [] else ['H' :: num, 'G' :: num, num])
          ((d :: dr).filter Char.isDigit)) = _
    rw [hmatch2]
    simp only [Bool.false_eq_true, if_false, hfilter]
    rw [if_neg (List.cons_ne_nil d dr)]
  have hpk3 : pieceKeysOT (d :: dr) = ['H' :: d :: dr, d :: dr, 'G' :: d :: dr] := by
    unfold pieceKeysOT
    rw [pyStrip_no_space _ (fun c hc => space_false_of_delim_false (hnd2 c hc))]
    show (if matchHG (d :: dr) then
        (fun num => if num = [] then [] else [Char.toUpper d :: num, num])
          (dr.filter Char.isDigit)
      else
        (fun num => if num = [] then [] else ['H' :: num, num, 'G' :: num])
          ((d :: dr).filter Char.isDigit)) = _
    rw [hmatch2]
    simp only [Bool.false_eq_true, if_false, hfilter]
    rw [if_neg (List.cons_ne_nil d dr)]
  have hlen1 : Char.toUpper letter :: d :: dr ≠ d :: dr := by
    intro hh
    have := congrArg List.length hh
    simp at this
  have hHds : 'H' :: d :: dr ≠ 'G' :: d :: dr := by
    intro hh
    injection hh with h1 h2
    exact absurd h1 (by decide)
  have hHlen : 'H' :: d :: dr ≠ d :: dr := by
    intro hh
    have := congrArg List.length hh
    simp at this
  have hGlen : 'G' :: d :: dr ≠ d :: dr := by
    intro hh
    have := congrArg List.length hh
    simp at this
  refine ⟨?_, ?_, ?_, fun raw => ⟨norm_nodup raw, norm_ot_nodup raw⟩⟩
  · unfold norm_strong_keys
    rw [if_neg (List.cons_ne_nil _ _),
      pyStrip_no_space _ (fun c hc => space_false_of_delim_false (hnd c hc)),
      splitPieces_single (List.cons_ne_nil _ _) hnd]
    simp only [List.map_cons, List.map_nil, List.flatten_cons, List.flatten_nil,
      List.append_nil, hpk]
    exact dedupe_pair hlen1
  · unfold norm_strong_keys
    rw [if_neg (List.cons_ne_nil _ _),
      pyStrip_no_space _ (fun c hc => space_false_of_delim_false (hnd2 c hc)),
      splitPieces_single (List.cons_ne_nil _ _) hnd2]
    simp only [List.map_cons, List.map_nil, List.flatten_cons, List.flatten_nil,
      List.append_nil, hpk2]
    exact dedupe_triple hHds hHlen hGlen
  · unfold norm_strong_keys_ot
    rw [if_neg (List.cons_ne_nil _ _),
      pyStrip_no_space _ (fun c hc => space_false_of_delim_false (hnd2 c hc)),
      splitPieces_single (List.cons_ne_nil _ _) hnd2]
    simp only [List.map_cons, List.map_nil, List.flatten_cons, List.flatten_nil,
      List.append_nil, hpk3]
    exact dedupe_triple hHlen hHds (Ne.symm hGlen)

/-- Witness for C1 at letter `g` and digits `3056`. -/
theorem C1_normalize_key_shapes_witness :
    norm_strong_keys "g3056".toList = ["G3056".toList, "3056".toList] ∧
    norm_strong_keys "3056".toList =
      ["H3056".toList, "G3056".toList, "3056".toList] ∧
    norm_strong_keys_ot "3056".toList =
      ["H3056".toList, "3056".toList, "G3056".toList] := by
  have h := C1_normalize_key_shapes 'g' "3056".toList (by decide) (by decide) (by decide)
  exact ⟨h.1, h.2.1, h.2.2.1⟩

/- ===================== C9 ===================== -/

/-- C9: the normalizer is total (it is a Lean function, so it cannot raise):
the `None`-equivalent input and the empty string both yield the empty
sequence, and an input with no digit characters (hence none after stripping)
yields no candidate keys at all rather than an error. -/
theorem C9_normalize_total_on_malformed :
    norm_strong_keys_raw none = [] ∧ norm_strong_keys [] = [] ∧
    ∀ raw : List Char, (∀ c ∈ raw, c.isDigit = false) → norm_strong_keys raw = [] := by
  refine ⟨rfl, rfl, ?_⟩
  intro raw hnd
  by_cases h0 : raw = []
  · subst h0; rfl
  · unfold norm_strong_keys
    rw [if_neg h0]
    have hp : ∀ piece ∈ splitPieces (pyStrip raw), pieceKeys piece = [] := by
      intro piece hpc
      have hsub : ∀ c ∈ piece, c ∈ raw := fun c hc =>
        pyStrip_subset (mem_of_mem_splitPieces hpc hc)
      cases piece with
      | nil => rfl
      | cons c rest =>
        have hm : matchHG (c :: rest) = false := by
          cases hx : matchHG (c :: rest)
          · rfl
          · exfalso
            have hx' : ((c = 'H' || c = 'h' || c = 'G' || c = 'g') &&
                !rest.isEmpty && rest.all Char.isDigit) = true := hx
            simp only [Bool.and_eq_true] at hx'
            obtain ⟨⟨-, hne'⟩, hall⟩ := hx'
            cases rest with
            | nil => simp at hne'
            | cons r rs =>
              have ht : r.isDigit = true := List.all_eq_true.mp hall r (by simp)
              have hf : r.isDigit = false := hnd r (hsub r (by simp))
              rw [ht] at hf
              exact Bool.true_eq_false.mp hf
        have hfil : (c :: rest).filter Char.isDigit = [] := by
          rw [List.filter_eq_nil_iff]
          intro a ha
          simp [hnd a (hsub a ha)]
        show (if matchHG (c :: rest) then
            (fun num => if num = [] then [] else [Char.toUpper c :: num, num])
              (rest.filter Char.isDigit)
          else
            (fun num => if num = [] then [] else ['H' :: num, 'G' :: num, num])
              ((c :: rest).filter Char.isDigit)) = []
        rw [hm]
        simp [hfil]
    have hfl : ((splitPieces (pyStrip raw)).map pieceKeys).flatten = [] := by
      rw [List.flatten_eq_nil_iff]
      intro l hl
      obtain ⟨piece, hpc, rfl⟩ := List.mem_map.mp hl
      exact hp piece hpc
    rw [hfl]
    rfl

/-- Witness for C9's universally quantified part at the digit-free
input `Hx/,`. -/
theorem C9_normalize_total_on_malformed_witness :
    norm_strong_keys "Hx/,".toList = [] :=
  C9_normalize_total_on_malformed.2.2 "Hx/,".toList (by decide)

/- ===================== C2, C3, C7: enrichment ===================== -/

theorem firstHit_eq_findSome (m : StrMap LexEntry) (ks : List (List Char)) :
    firstHit m ks = ks.findSome? (mget m) := by
  induction ks with
  | nil => rfl
  | cons k rest ih =>
    show (match mget m k with
      | some e => some e
      | none => firstHit m rest) = _
    rw [List.findSome?_cons]
    cases mget m k with
    | none => exact ih
    | some e => rfl

/-- The candidate-resolution rule in the specification's words: the first
Strong's-keyed hit while iterating the normalized keys in order
(`List.findSome?` is exactly "first hit in iteration order"), falling back to
the lemma-keyed lookup only when there is no Strong's hit and the token's own
lemma is non-empty, and otherwise no candidate. -/
def claimCandidate (lex : Lexicon) (strong lemma_ : List Char) : Option LexEntry :=
  match (norm_strong_keys strong).findSome? (mget lex.by_strong) with
  | some e => some e
  | none => if lemma_ ≠ [] then mget lex.by_lemma lemma_ else none

theorem candidate_eq_claimCandidate (lex : Lexicon) (strong lemma_ : List Char) :
    candidate lex strong lemma_ = claimCandidate lex strong lemma_ := by
  unfold candidate claimCandidate
  rw [firstHit_eq_findSome]

/-- C2: on a token that is not already complete, `enrich_token` resolves one
candidate entry per the specification's rule (first Strong's hit in normalize
order, lemma fallback only when no Strong's hit and the token has a lemma,
else the empty candidate), computes each resolved field independently as the
token's own value if non-empty else the candidate's value else empty, and
sets `translation` equal to `resolved_gloss`. -/
theorem C2_enrich_candidate_and_fields (lex : Lexicon) (row : TokenRow)
    (h : ¬(row.lemma_ ≠ [] ∧ row.translit ≠ [] ∧ row.gloss ≠ [])) :
    (enrich_token lex row).resolved_lemma =
      pyOr row.lemma_ (candField (claimCandidate lex row.strong row.lemma_) LexEntry.lemma_) ∧
    (enrich_token lex row).resolved_translit =
      pyOr row.translit (candField (claimCandidate lex row.strong row.lemma_) LexEntry.translit) ∧
    (enrich_token lex row).resolved_gloss =
      pyOr row.gloss (candField (claimCandidate lex row.strong row.lemma_) LexEntry.gloss) ∧
    (enrich_token lex row).translation = (enrich_token lex row).resolved_gloss := by
  unfold enrich_token
  rw [if_neg h]
  refine ⟨?_, ?_, ?_, rfl⟩ <;> simp [candidate_eq_claimCandidate]

/-- Demonstration lexicon: one Strong's row `G1722 -> (en, en, in)`. -/
def demoStrongsRows : List StrongsRow :=
  [⟨"G1722".toList, "en".toList, "en".toList, "in".toList⟩]

/-- Demonstration lexicon store. -/
def demoLex : Lexicon := Lexicon.load demoStrongsRows []

/-- An incomplete token carrying only a Strong's code. -/
def demoRow : TokenRow :=
  ⟨"En".toList, [], [], [], "P".toList, "G1722".toList, 1⟩

/-- Witness for C2: the incomplete demo token borrows gloss `in` from the
demo lexicon via its Strong's code. -/
theorem C2_enrich_candidate_and_fields_witness :
    (enrich_token demoLex demoRow).resolved_gloss = "in".toList ∧
    (enrich_token demoLex demoRow).translation =
      (enrich_token demoLex demoRow).resolved_gloss := by
  have h := C2_enrich_candidate_and_fields demoLex demoRow (by decide)
  refine ⟨?_, h.2.2.2⟩
  rw [h.2.2.1]
  decide

/-- C3: on a token whose lemma, translit and gloss are all non-empty,
`enrich_token` short-circuits: the resolved fields equal the originals
exactly, `translation` is the original gloss, and the result does not depend
on the lexicon at all (zero lexicon lookups). -/
theorem C3_enrich_short_circuit (lex : Lexicon) (row : TokenRow)
    (h : row.lemma_ ≠ [] ∧ row.translit ≠ [] ∧ row.gloss ≠ []) :
    (enrich_token lex row).resolved_lemma = row.lemma_ ∧
    (enrich_token lex row).resolved_translit = row.translit ∧
    (enrich_token lex row).resolved_gloss = row.gloss ∧
    (enrich_token lex row).translation = row.gloss ∧
    ∀ lex' : Lexicon, enrich_token lex' row = enrich_token lex row := by
  unfold enrich_token
  rw [if_pos h]
  refine ⟨rfl, rfl, rfl, rfl, fun lex' => ?_⟩
  rw [if_pos h]

/-- A complete token: every resolvable field already non-empty. -/
def demoRowFull : TokenRow :=
  ⟨"x".toList, "a".toList, "b".toList, "c".toList, [], "G1722".toList, 2⟩

/-- Witness for C3: the complete demo token keeps its own lemma and its
enrichment is the same under the empty lexicon. -/
theorem C3_enrich_short_circuit_witness :
    (enrich_token demoLex demoRowFull).resolved_lemma = "a".toList ∧
    enrich_token (Lexicon.load [] []) demoRowFull = enrich_token demoLex demoRowFull := by
  have h := C3_enrich_short_circuit demoLex demoRowFull (by decide)
  exact ⟨h.1, h.2.2.2.2 (Lexicon.load [] [])⟩

/-- C7: enrichment is idempotent for a fixed lexicon: re-running
`enrich_token` on the original fields carried on its output reproduces the
same record, because enrichment reads only the token's own original fields
(which the output carries unchanged) and the fixed lexicon. -/
theorem C7_enrich_idempotent (lex : Lexicon) (row : TokenRow) :
    enrich_token lex (originalFields (enrich_token lex row)) = enrich_token lex row := by
  have horig : originalFields (enrich_token lex row) = row := by
    unfold enrich_token originalFields
    by_cases h : row.lemma_ ≠ [] ∧ row.translit ≠ [] ∧ row.gloss ≠ []
    · rw [if_pos h]
    · rw [if_neg h]
  rw [horig]

/- ===================== map lemmas ===================== -/

theorem mget_mset_self {α : Type} (m : StrMap α) (k : List Char) (v : α) :
    mget (mset m k v) k = some v := by
  unfold mget mset
  rw [List.find?_cons_of_pos _ (by simp)]
  rfl

theorem mget_mset_ne {α : Type} (m : StrMap α) {k k' : List Char} (v : α)
    (h : k' ≠ k) : mget (mset m k' v) k = mget m k := by
  unfold mget mset
  rw [List.find?_cons_of_neg _ (by simp [h])]

theorem mget_foldl_mset_not_mem {e : LexEntry} {k : List Char} :
    ∀ (ks : List (List Char)) (m : StrMap LexEntry), k ∉ ks →
      mget (ks.foldl (fun m' k' => mset m' k' e) m) k = mget m k := by
  intro ks
  induction ks with
  | nil => intro m _; rfl
  | cons k0 rest ih =>
    intro m h
    have h0 : k0 ≠ k := fun hk => h (hk ▸ List.mem_cons_self _ _)
    have h1 : k ∉ rest := fun hk => h (List.mem_cons_of_mem _ hk)
    show mget (rest.foldl _ (mset m k0 e)) k = mget m k
    rw [ih _ h1, mget_mset_ne _ _ h0]

theorem mget_foldl_mset_mem {e : LexEntry} {k : List Char} :
    ∀ (ks : List (List Char)) (m : StrMap LexEntry), k ∈ ks →
      mget (ks.foldl (fun m' k' => mset m' k' e) m) k = some e := by
  intro ks
  induction ks with
  | nil => intro m h; simp at h
  | cons k0 rest ih =>
    intro m h
    show mget (rest.foldl _ (mset m k0 e)) k = some e
    by_cases hr : k ∈ rest
    · exact ih _ hr
    · rcases List.mem_cons.mp h with rfl | h'
      · rw [mget_foldl_mset_not_mem _ _ hr, mget_mset_self]
      · exact absurd h' hr

/- ===================== C6 ===================== -/

/-- C6: last-writer-wins: loading two Strong's rows whose raw codes
normalize to a common key leaves the later row's entry under that key. -/
theorem C6_last_writer_wins (r1 r2 : StrongsRow) (k : List Char)
    (h1 : k ∈ norm_strong_keys r1.strong) (h2 : k ∈ norm_strong_keys r2.strong) :
    mget (loadStrongs [r1, r2]) k = some (entryOfRow r2) := by
  have h2' : k ∈ norm_strong_keys (pyStrip r2.strong) := by
    rw [norm_strong_keys_pyStrip]
    exact h2
  have hne2 : pyStrip r2.strong ≠ [] := by
    intro hz
    rw [hz] at h2'
    simp [norm_strong_keys] at h2'
  show mget (if pyStrip r2.strong = [] then _
    else (norm_strong_keys (pyStrip r2.strong)).foldl _ _) k = some (entryOfRow r2)
  rw [if_neg hne2]
  exact mget_foldl_mset_mem _ _ h2'

/-- Two demonstration rows whose codes `H1` and `1` both normalize to the
key `H1`. -/
def demoCollideRow1 : StrongsRow :=
  ⟨"H1".toList, "alef1".toList, "t1".toList, "g1".toList⟩

/-- The later colliding row. -/
def demoCollideRow2 : StrongsRow :=
  ⟨"1".toList, "alef2".toList, "t2".toList, "g2".toList⟩

/-- Witness for C6: `H1` afterwards maps to the later row's entry. -/
theorem C6_last_writer_wins_witness :
    mget (loadStrongs [demoCollideRow1, demoCollideRow2]) "H1".toList =
      some (entryOfRow demoCollideRow2) :=
  C6_last_writer_wins demoCollideRow1 demoCollideRow2 "H1".toList
    (by decide) (by decide)

/- ===================== C4 ===================== -/

theorem pyOr_of_ne {a b : List Char} (h : a ≠ []) : pyOr a b = a := if_neg h

theorem pyOr_eq_nil {a b : List Char} (h : pyOr a b = []) : a = [] ∧ b = [] := by
  unfold pyOr at h
  split at h
  · exact ⟨by assumption, h⟩
  · exact absurd h (by assumption)

/-- `processRow` with its lets inlined, for case analysis. -/
theorem processRow_eq (overwrite : Bool) (sm gm : StrMap LexEntry) (r : DbTokenRow) :
    processRow overwrite sm gm r =
      match (match firstHit sm (norm_strong_keys (pyStrip r.strong)) with
             | some e => some e
             | none =>
               if pyStrip r.lemma_ ≠ [] then mget gm (pyStrip r.lemma_) else none) with
      | none => none
      | some e =>
        if decideNewValues overwrite e (pyStrip r.lemma_) (pyStrip r.translit)
            (pyStrip r.gloss) ≠
            (pyStrip r.lemma_, pyStrip r.translit, pyStrip r.gloss)
        then some (decideNewValues overwrite e (pyStrip r.lemma_) (pyStrip r.translit)
            (pyStrip r.gloss))
        else none := rfl

/-- C4: for every row the batch resolver touches: in fillEmpty mode a
non-empty field is never changed; in either mode a field that had a value is
never blanked (in overwrite mode the candidate's value is taken only when
non-empty); and values are written back only when at least one field
actually changes. -/
theorem C4_batch_resolver_write_safety (overwrite : Bool)
    (sm gm : StrMap LexEntry) (r : DbTokenRow) (nl nt ng : List Char)
    (h : processRow overwrite sm gm r = some (nl, nt, ng)) :
    (overwrite = false →
      (pyStrip r.lemma_ ≠ [] → nl = pyStrip r.lemma_) ∧
      (pyStrip r.translit ≠ [] → nt = pyStrip r.translit) ∧
      (pyStrip r.gloss ≠ [] → ng = pyStrip r.gloss)) ∧
    ((nl = [] → pyStrip r.lemma_ = []) ∧ (nt = [] → pyStrip r.translit = []) ∧
      (ng = [] → pyStrip r.gloss = [])) ∧
    (nl, nt, ng) ≠ (pyStrip r.lemma_, pyStrip r.translit, pyStrip r.gloss) := by
  rw [processRow_eq] at h
  split at h
  · exact absurd h (by simp)
  · next e heq =>
    split at h
    · next hcond =>
      injection h with hv
      cases overwrite with
      | false =>
        rw [decideNewValues, if_neg (by simp)] at hv hcond
        rw [Prod.mk.injEq, Prod.mk.injEq] at hv
        obtain ⟨e1, e2, e3⟩ := hv
        refine ⟨fun _ => ⟨?_, ?_, ?_⟩, ⟨?_, ?_, ?_⟩, ?_⟩
        · intro hne
          rw [← e1, pyOr_of_ne hne]
        · intro hne
          rw [← e2, pyOr_of_ne hne]
        · intro hne
          rw [← e3, pyOr_of_ne hne]
        · intro hz
          rw [← e1] at hz
          exact (pyOr_eq_nil hz).1
        · intro hz
          rw [← e2] at hz
          exact (pyOr_eq_nil hz).1
        · intro hz
          rw [← e3] at hz
          exact (pyOr_eq_nil hz).1
        · rw [← e1, ← e2, ← e3]
          exact hcond
      | true =>
        rw [decideNewValues, if_pos rfl] at hv hcond
        rw [Prod.mk.injEq, Prod.mk.injEq] at hv
        obtain ⟨e1, e2, e3⟩ := hv
        refine ⟨fun hfalse => absurd hfalse (by simp), ⟨?_, ?_, ?_⟩, ?_⟩
        · intro hz
          rw [← e1] at hz
          exact (pyOr_eq_nil hz).2
        · intro hz
          rw [← e2] at hz
          exact (pyOr_eq_nil hz).2
        · intro hz
          rw [← e3] at hz
          exact (pyOr_eq_nil hz).2
        · rw [← e1, ← e2, ← e3]
          exact hcond
    · exact absurd h (by simp)

/-- A stored token row with a lemma of its own, empty translit/gloss, and a
Strong's code resolvable in the demo lexicon. -/
def demoDbRow : DbTokenRow :=
  ⟨7, "G1722".toList, "x".toList, [], []⟩

/-- Witness for C4 in fillEmpty mode: the row's own lemma survives and the
written triple differs from the stored one. -/
theorem C4_batch_resolver_write_safety_witness :
    "x".toList = pyStrip demoDbRow.lemma_ ∧
    ("x".toList, "en".toList, "in".toList) ≠
      (pyStrip demoDbRow.lemma_, pyStrip demoDbRow.translit, pyStrip demoDbRow.gloss) := by
  have hpr : processRow false (loadStrongs demoStrongsRows) [] demoDbRow =
      some ("x".toList, "en".toList, "in".toList) := by decide
  have h := C4_batch_resolver_write_safety false (loadStrongs demoStrongsRows) []
    demoDbRow _ _ _ hpr
  exact ⟨((h.1 rfl).1 (by decide)).symm ▸ rfl, h.2.2⟩

/- ===================== C5: seed loader (corrected) ===================== -/

/-- A CSV row whose `chapter` field is not numeric. -/
def demoRawBad : RawRow :=
  ⟨"GEN".toList, "x".toList, "1".toList, "1".toList, "a".toList,
   [], [], [], [], []⟩

/-- A well-formed CSV row. -/
def demoRawGood : RawRow :=
  ⟨"GEN".toList, "1".toList, "1".toList, "2".toList, "b".toList,
   [], [], [], [], []⟩

/-- Counterexample to C5 as stated: a malformed source row (bad numeric
field) is NOT isolated per-row.  On the two-row file [bad, good] with every
insert succeeding, the load aborts with the coercion error (the `ValueError`
escapes the generator feeding `batched`, outside the per-batch try/except),
instead of continuing with the good row inserted and the bad row counted. -/
theorem C5_counterexample_bad_row_aborts :
    seed requiredCols [demoRawBad, demoRawGood] (fun _ => true) 50000 =
      Except.error SeedErr.badNumeric ∧
    (seed requiredCols [demoRawBad, demoRawGood] (fun _ => true) 50000).isOk = false ∧
    seed requiredCols [demoRawBad, demoRawGood] (fun _ => true) 50000 ≠
      Except.ok (1, 1) := by
  refine ⟨by decide, by decide, by decide⟩

theorem runBatch_eq (insertOk : SeedRow → Bool) (batch : List SeedRow) :
    runBatch insertOk batch =
      (batch.countP insertOk, batch.countP (fun r => !insertOk r)) := by
  unfold runBatch
  split
  · next hall =>
    have h1 : batch.countP insertOk = batch.length :=
      List.countP_eq_length.mpr (fun a ha => List.all_eq_true.mp hall a ha)
    have h2 : batch.countP (fun r => !insertOk r) = 0 := by
      rw [List.countP_eq_zero]
      intro a ha
      simp [List.all_eq_true.mp hall a ha]
    rw [h1, h2]
  · rfl

theorem seedLoop_all_ok (insertOk : SeedRow → Bool) (bs : Nat) :
    ∀ (rows : List RawRow) (batch : List SeedRow) (total bad : Nat),
      (∀ r ∈ rows, (coerce_row r).isOk = true) →
      seedLoop insertOk bs rows batch total bad =
        Except.ok
          (total + (batch ++ rows.filterMap (fun r => (coerce_row r).toOption)).countP insertOk,
           bad + (batch ++ rows.filterMap (fun r => (coerce_row r).toOption)).countP
             (fun x => !insertOk x)) := by
  intro rows
  induction rows with
  | nil =>
    intro batch total bad _
    show (if batch = [] then Except.ok (total, bad) else _) = _
    by_cases hb : batch = []
    · subst hb
      simp
    · rw [if_neg hb, runBatch_eq]
      simp
  | cons r rest ih =>
    intro batch total bad hco
    have hr : (coerce_row r).isOk = true := hco r (List.mem_cons_self _ _)
    obtain ⟨row, hrow⟩ : ∃ row, coerce_row r = Except.ok row := by
      cases hcr : coerce_row r with
      | error e => rw [hcr] at hr; exact absurd hr (by simp [Except.isOk, Except.toBool])
      | ok row => exact ⟨row, rfl⟩
    show (match coerce_row r with
      | Except.error e => Except.error e
      | Except.ok row => _) = _
    rw [hrow]
    have hco' : ∀ x ∈ rest, (coerce_row x).isOk = true :=
      fun x hx => hco x (List.mem_cons_of_mem r hx)
    have hfm : (r :: rest).filterMap (fun x => (coerce_row x).toOption) =
        row :: rest.filterMap (fun x => (coerce_row x).toOption) := by
      rw [List.filterMap_cons, hrow]
      rfl
    dsimp only
    rw [runBatch_eq]
    by_cases hbs : bs ≤ (batch ++ [row]).length
    · rw [if_pos hbs, ih _ _ _ hco', hfm]
      simp only [Except.ok.injEq, Prod.mk.injEq, List.nil_append, List.countP_append,
        List.countP_cons, List.countP_nil]
      exact ⟨by omega, by omega⟩
    · rw [if_neg hbs, ih _ _ _ hco', hfm]
      rw [List.append_assoc]
      rfl

theorem seedLoop_error (insertOk : SeedRow → Bool) (bs : Nat) :
    ∀ (rows : List RawRow) (batch : List SeedRow) (total bad : Nat),
      (∃ r ∈ rows, (coerce_row r).isOk = false) →
      (seedLoop insertOk bs rows batch total bad).isOk = false := by
  intro rows
  induction rows with
  | nil =>
    intro batch total bad hex
    obtain ⟨r, hr, -⟩ := hex
    simp at hr
  | cons a rest ih =>
    intro batch total bad hex
    show (match coerce_row a with
      | Except.error e => Except.error e
      | Except.ok row => _).isOk = false
    cases hca : coerce_row a with
    | error e => rfl
    | ok row =>
      obtain ⟨r, hr, hrf⟩ := hex
      rcases List.mem_cons.mp hr with rfl | hr'
      · rw [hca] at hrf
        exact absurd hrf (by simp [Except.isOk, Except.toBool])
      · dsimp only
        split
        · exact ih _ _ _ ⟨r, hr', hrf⟩
        · exact ih _ _ _ ⟨r, hr', hrf⟩

/-- C5 (amended): the header check is fatal when a required column is
missing; a row that fails coercion (bad numeric fields or missing required
fields) is also fatal — it aborts the load at that row instead of being
isolated; only rows that fail at the database insert are isolated per row,
with the batch retried row-by-row, the failing rows counted in `bad`, the
succeeding ones in `total`, and the job continuing. -/
theorem C5_amended_seed_failure_granularity :
    (∀ (fieldnames : List (List Char)) (rows : List RawRow)
        (insertOk : SeedRow → Bool) (bs : Nat),
      (requiredCols.any (fun c => !fieldnames.contains c)) = false →
      (∀ r ∈ rows, (coerce_row r).isOk = true) →
      seed fieldnames rows insertOk bs =
        Except.ok
          ((rows.filterMap (fun r => (coerce_row r).toOption)).countP insertOk,
           (rows.filterMap (fun r => (coerce_row r).toOption)).countP
             (fun x => !insertOk x))) ∧
    (∀ (fieldnames : List (List Char)) (rows : List RawRow)
        (insertOk : SeedRow → Bool) (bs : Nat),
      (requiredCols.any (fun c => !fieldnames.contains c)) = true →
      seed fieldnames rows insertOk bs = Except.error SeedErr.missingColumns) ∧
    (∀ (fieldnames : List (List Char)) (rows : List RawRow)
        (insertOk : SeedRow → Bool) (bs : Nat),
      (∃ r ∈ rows, (coerce_row r).isOk = false) →
      (seed fieldnames rows insertOk bs).isOk = false) := by
  refine ⟨?_, ?_, ?_⟩
  · intro fieldnames rows insertOk bs hhdr hco
    unfold seed
    rw [hhdr]
    simp only [Bool.false_eq_true, if_false]
    rw [seedLoop_all_ok insertOk bs rows [] 0 0 hco]
    simp
  · intro fieldnames rows insertOk bs hhdr
    unfold seed
    rw [hhdr]
    rfl
  · intro fieldnames rows insertOk bs hex
    unfold seed
    split
    · rfl
    · exact seedLoop_error insertOk bs rows [] 0 0 hex

/-- Witness for the amended C5: a good single-row file loads with counters
`(1, 0)`, and a file whose first row is malformed aborts. -/
theorem C5_amended_seed_failure_granularity_witness :
    seed requiredCols [demoRawGood] (fun _ => true) 3 = Except.ok (1, 0) ∧
    (seed requiredCols [demoRawBad, demoRawGood] (fun _ => true) 3).isOk = false := by
  refine ⟨?_, ?_⟩
  · have h := C5_amended_seed_failure_granularity.1 requiredCols [demoRawGood]
      (fun _ => true) 3 (by decide) (by decide)
    exact h.trans (by decide)
  · exact C5_amended_seed_failure_granularity.2.2 requiredCols [demoRawBad, demoRawGood]
      (fun _ => true) 3 ⟨demoRawBad, by simp, by decide⟩

/- ===================== C8: book resolution ===================== -/

theorem resolve_book_eq (codes : StrMap (List Char)) (raw : List Char) :
    resolve_book codes raw =
      if pyStrip raw = [] then Except.error 400
      else resolveUpLow codes ((pyStrip raw).map Char.toUpper)
        ((pyStrip raw).map Char.toLower) := rfl

theorem map_eq_map_of_compat {f g : Char → Char}
    (hfg : ∀ c d, f c = f d → g c = g d) :
    ∀ {A B : List Char}, A.map f = B.map f → A.map g = B.map g := by
  intro A
  induction A with
  | nil =>
    intro B h
    cases B with
    | nil => rfl
    | cons b bs => simp at h
  | cons a as ih =>
    intro B h
    cases B with
    | nil => simp at h
    | cons b bs =>
      simp only [List.map_cons, List.cons.injEq] at h
      simp only [List.map_cons, List.cons.injEq]
      exact ⟨hfg a b h.1, ih h.2⟩

/-- C8: book resolution.  (a) an input that strips to empty is rejected with
a 400 validation error for every book table, before any lookup; (b) the
result depends only on the input up to letter case; (c) every code and every
full name of the 66-entry table resolves to that entry, so a name and its
code give the same resolved pair; (d) when the code lookup, the name lookup
and the first-three-letters fallback all miss, the result is a 404 not-found
error and nothing else; (e) inputs that resolve alike produce identical
verse-endpoint payloads. -/
theorem C8_book_resolution :
    (∀ (codes : StrMap (List Char)) (raw : List Char), pyStrip raw = [] →
      resolve_book codes raw = Except.error 400) ∧
    (∀ (codes : StrMap (List Char)) (s t : List Char),
      s.map Char.toUpper = t.map Char.toUpper →
      resolve_book codes s = resolve_book codes t) ∧
    (∀ c n : List Char, (c, n) ∈ BOOK_CODES →
      resolve_book BOOK_CODES c = Except.ok (c, n) ∧
      resolve_book BOOK_CODES n = Except.ok (c, n)) ∧
    (∀ raw : List Char, pyStrip raw ≠ [] →
      mget BOOK_CODES ((pyStrip raw).map Char.toUpper) = none →
      mget (name_to_code BOOK_CODES) ((pyStrip raw).map Char.toLower) = none →
      mget BOOK_CODES (((pyStrip raw).map Char.toUpper).take 3) = none →
      resolve_book BOOK_CODES raw = Except.error 404) ∧
    (∀ s t : List Char, resolve_book BOOK_CODES s = resolve_book BOOK_CODES t →
      ∀ (lex : Lexicon) (db : List DbRow) (ch v : Int),
        get_interlinear_verse lex db s ch v = get_interlinear_verse lex db t ch v) := by
  refine ⟨?_, ?_, ?_, ?_, ?_⟩
  · intro codes raw h
    rw [resolve_book_eq, if_pos h]
  · intro codes s t hst
    have hup : (pyStrip s).map Char.toUpper = (pyStrip t).map Char.toUpper := by
      rw [← pyStrip_map_comm (fun c => space_toUpper_iff) s,
        ← pyStrip_map_comm (fun c => space_toUpper_iff) t, hst]
    have hlow : (pyStrip s).map Char.toLower = (pyStrip t).map Char.toLower :=
      map_eq_map_of_compat (fun c d h => toLower_eq_of_toUpper_eq h) hup
    by_cases h0 : pyStrip s = []
    · have h0t : pyStrip t = [] := by
        have := hup
        rw [h0] at this
        simpa using this.symm
      rw [resolve_book_eq, resolve_book_eq, if_pos h0, if_pos h0t]
    · have h0t : pyStrip t ≠ [] := by
        intro hz
        rw [hz] at hup
        simp at hup
        exact h0 hup
      rw [resolve_book_eq, resolve_book_eq, if_neg h0, if_neg h0t, hup, hlow]
  · intro c n h
    exact (by decide :
      ∀ p ∈ BOOK_CODES, resolve_book BOOK_CODES p.1 = Except.ok (p.1, p.2) ∧
        resolve_book BOOK_CODES p.2 = Except.ok (p.1, p.2)) (c, n) h
  · intro raw h0 h1 h2 h3
    rw [resolve_book_eq, if_neg h0]
    unfold resolveUpLow
    rw [h1, h2, h3]
  · intro s t hst lex db ch v
    unfold get_interlinear_verse
    rw [hst]

/-- Witness for C8: Genesis by name, by code, by scrambled case, the empty
input, and the equal verse payloads for name and code. -/
theorem C8_book_resolution_witness :
    resolve_book BOOK_CODES "Genesis".toList =
      Except.ok ("GEN".toList, "Genesis".toList) ∧
    resolve_book BOOK_CODES "GEN".toList =
      Except.ok ("GEN".toList, "Genesis".toList) ∧
    resolve_book BOOK_CODES "gEnEsIs".toList = resolve_book BOOK_CODES "Genesis".toList ∧
    resolve_book BOOK_CODES [] = Except.error 400 ∧
    get_interlinear_verse demoLex [] "Genesis".toList 1 1 =
      get_interlinear_verse demoLex [] "GEN".toList 1 1 := by
  have h := C8_book_resolution
  have hc := h.2.2.1 "GEN".toList "Genesis".toList (by decide)
  exact ⟨hc.2, hc.1, h.2.1 BOOK_CODES _ _ (by decide), h.1 BOOK_CODES [] rfl,
    h.2.2.2.2 _ _ (hc.2.trans hc.1.symm) demoLex [] 1 1⟩

/- ===================== C10: empty result is success ===================== -/

/-- C10: once the book parameter resolves, the verse and chapter endpoints
always succeed; a verse with no stored rows yields a success payload whose
`tokens` list is empty, and a chapter with no stored rows yields an empty
`verses` map — never a not-found error. -/
theorem C10_empty_result_is_success (book code name : List Char)
    (h : resolve_book BOOK_CODES book = Except.ok (code, name)) :
    ∀ (lex : Lexicon) (db : List DbRow) (ch v : Int),
      (get_interlinear_verse lex db book ch v).isOk = true ∧
      (∀ p, get_interlinear_verse lex db book ch v = Except.ok p →
        verseQuery db code ch v = [] → p.tokens = []) ∧
      (get_interlinear_chapter lex db book ch).isOk = true ∧
      (∀ q, get_interlinear_chapter lex db book ch = Except.ok q →
        chapterQuery db code ch = [] → q.verses = []) := by
  intro lex db ch v
  unfold get_interlinear_verse get_interlinear_chapter
  rw [h]
  dsimp only
  refine ⟨rfl, ?_, rfl, ?_⟩
  · intro p hp hq
    rw [hq] at hp
    injection hp with hp'
    rw [← hp']
    rfl
  · intro q hq hqq
    rw [hqq] at hq
    injection hq with hq'
    rw [← hq']
    rfl

/-- Witness for C10: on an empty database both endpoints succeed for `GEN`. -/
theorem C10_empty_result_is_success_witness :
    (get_interlinear_verse demoLex [] "GEN".toList 1 1).isOk = true ∧
    (get_interlinear_chapter demoLex [] "GEN".toList 1).isOk = true := by
  have h := C10_empty_result_is_success "GEN".toList "GEN".toList "Genesis".toList
    (by decide) demoLex [] 1 1
  exact ⟨h.1, h.2.2.1⟩
